import Mathlib

/-!
Shallow embedding of the core of `rocksdb-viewer` (a Rust TUI for browsing a
RocksDB key-value store) and verification of its specification claims.

Source files embedded: `src/models.rs` (record model), `src/data.rs`
(loader / data manager), `src/app.rs` (view pipeline, pagination),
`src/events.rs` (navigation state machine).

Modelling conventions:
* `HashMap<String, V>` is modelled as an association list `List (String × V)`
  looked up with `List.lookup`; every code path that iterates over keys sorts
  them first, so iteration order never matters.
* Machine integers (`usize`, `u16`) are modelled as `Nat`; the one narrowing
  cast in the source (`as u16`) is modelled as `% 65536`.
* A Rust panic (`unwrap` on `None`, division by zero) is modelled by the
  function returning `none` : fallible embedded functions return `Option`.
* `serde_json::Value` numbers are modelled as exact rationals; floating-point
  parsing (`str::parse::<f64>`) is modelled as exact rational parsing of
  finite decimal literals (sign, digits, optional fraction, optional
  exponent); `inf`/`nan` literals and rounding are outside the model.
* The JSON decoder (`serde_json::from_slice`) and UTF-8 lossy decoding are
  external library collaborators, passed to `deserialize_record` as function
  parameters.
-/

namespace RocksViewer

/-- Model of `serde_json::Value` (src/models.rs uses it as the payload type). -/
inductive Json where
  | null : Json
  | bool (b : Bool) : Json
  | num (q : Rat) : Json
  | str (s : String) : Json
  | arr (xs : List Json) : Json
  | obj (fields : List (String × Json)) : Json

/-- Model of `struct Record` from src/models.rs: raw bytes are `List Nat`
(each entry a byte value). -/
structure Record where
  record_type : String
  key : String
  data : Json
  raw_data : List Nat

/-- Render a rational the way the embedding stringifies JSON numbers.
(No claim depends on the exact number rendering.) -/
def numRender (q : Rat) : String :=
  if q.den = 1 then toString q.num else toString q

mutual

/-- Serialization of a JSON value to text, model of `serde_json::Value`'s
`to_string` used in the catch-all arm of `value_to_string`. -/
def Json.render : Json → String
  | .null => "null"
  | .bool true => "true"
  | .bool false => "false"
  | .num q => numRender q
  | .str s => "\"" ++ s ++ "\""
  | .arr xs => "[" ++ Json.renderItems xs ++ "]"
  | .obj fs => "\x7b" ++ Json.renderFields fs ++ "\x7d"

def Json.renderItems : List Json → String
  | [] => ""
  | [x] => Json.render x
  | x :: xs => Json.render x ++ "," ++ Json.renderItems xs

def Json.renderFields : List (String × Json) → String
  | [] => ""
  | [(k, v)] => "\"" ++ k ++ "\":" ++ Json.render v
  | (k, v) :: fs => "\"" ++ k ++ "\":" ++ Json.render v ++ "," ++ Json.renderFields fs

end

/-- `fn value_to_string` from src/models.rs. -/
def value_to_string : Json → String
  | .str s => s
  | .num n => numRender n
  | .bool b => if b then "true" else "false"
  | .null => ""
  | v => v.render

/-- `Record::to_table_row` from src/models.rs: first cell is the key; for an
object payload each later header is looked up in the object, otherwise all
non-key cells are empty. -/
def Record.to_table_row (r : Record) (all_headers : List String) : List String :=
  match r.data with
  | .obj m =>
      r.key :: (all_headers.drop 1).map fun header =>
        match List.lookup header m with
        | some v => value_to_string v
        | none => ""
  | _ => r.key :: (all_headers.drop 1).map fun _ => ""

/-- Rust `str::split(delim)` on a character list: splits at every occurrence
of the delimiter; the empty input yields one empty segment, exactly as in
Rust. -/
def splitOnChar (delim : Char) : List Char → List (List Char)
  | [] => [[]]
  | c :: cs =>
    match splitOnChar delim cs with
    | [] => [[]]
    | s :: rest => if c = delim then [] :: s :: rest else (c :: s) :: rest

/-- `fn deserialize_record` from src/models.rs. The JSON decoder
(`serde_json::from_slice`) and the UTF-8 lossy decoder
(`String::from_utf8_lossy`) are external collaborators passed as parameters. -/
def deserialize_record (decode : List Nat → Option Json)
    (lossy : List Nat → String) (key : String) (value : List Nat) : Record :=
  let parts := (splitOnChar ':' key.data).map fun l => String.mk l
  let record_type := (parts.head?).getD "unknown"
  let data := match decode value with
    | some v => v
    | none => Json.obj [("value", Json.str (lossy value))]
  { record_type := record_type, key := key, data := data, raw_data := value }

/-! ### Model of `str::parse::<f64>` on finite decimal literals -/

/-- Split a character list at the first character satisfying `p`; returns the
segment before it and, when found, the remainder after it. -/
def splitOnFirst (p : Char → Bool) : List Char → List Char × Option (List Char)
  | [] => ([], none)
  | c :: cs =>
      if p c then ([], some cs)
      else
        let r := splitOnFirst p cs
        (c :: r.1, r.2)

/-- Numeric value of a list of decimal digit characters (most significant
first). -/
def digitsToNat (ds : List Char) : Nat :=
  ds.foldl (fun n c => n * 10 + (c.toNat - 48)) 0

/-- Model of Rust `str::parse::<f64>` restricted to finite decimal literals:
optional sign, digits with at most one dot (at least one digit), optional
exponent `e`/`E` with optional sign and mandatory digits. The value is exact
(`Rat`); `inf`/`nan` literals and float rounding/overflow are outside the
model, so such strings parse to `none` here. -/
def parseF64? (s : String) : Option Rat :=
  let (sgn, cs1) : Rat × List Char := match s.data with
    | '+' :: rest => (1, rest)
    | '-' :: rest => (-1, rest)
    | rest => (1, rest)
  let (mant, expPart) := splitOnFirst (fun c => c == 'e' || c == 'E') cs1
  let (ipart, fpartOpt) := splitOnFirst (fun c => c == '.') mant
  let fpart := fpartOpt.getD []
  if ipart.all Char.isDigit ∧ fpart.all Char.isDigit ∧ (ipart ≠ [] ∨ fpart ≠ []) then
    let mval : Rat :=
      (digitsToNat ipart : Rat) + (digitsToNat fpart : Rat) / ((10 ^ fpart.length : Nat) : Rat)
    let expVal : Option Int := match expPart with
      | none => some 0
      | some ecs =>
        let (esgn, eds) : Int × List Char := match ecs with
          | '+' :: rest => (1, rest)
          | '-' :: rest => (-1, rest)
          | rest => (1, rest)
        if eds ≠ [] ∧ eds.all Char.isDigit then some (esgn * digitsToNat eds)
        else none
    match expVal with
    | none => none
    | some e =>
      let scaled : Rat :=
        if 0 ≤ e then mval * ((10 : Rat) ^ e.toNat)
        else mval / ((10 : Rat) ^ (-e).toNat)
      some (sgn * scaled)
  else none

/-! ### Data manager state (src/data.rs) -/

/-- `DataManager.records` field: `HashMap<String, Vec<Record>>` as an
association list. -/
abbrev RecordsMap := List (String × List Record)

/-- `DataManager.headers` field. -/
abbrev HeadersMap := List (String × List String)

/-- Boolean string order used to model `Vec<String>::sort()` (Rust sorts
`String` bytewise; for valid UTF-8 that coincides with the code-point order
underlying Lean's `String` order). -/
def strLe (a b : String) : Bool := decide (a ≤ b)

/-- `DataManager::delete_record` from src/data.rs: retain, in the selected
type's list, only records whose key differs from the deleted one. -/
def delete_record (records : RecordsMap) (table : String) (key : String) : RecordsMap :=
  records.map fun p =>
    if p.1 = table then (p.1, p.2.filter fun r => r.key ≠ key) else p

/-- Field names of an object payload (empty for non-objects); used to state
header derivation. -/
def Json.fieldNames : Json → List String
  | .obj m => m.map Prod.fst
  | _ => []

/-- The `HashSet` accumulation inside `DataManager::collect_headers`:
fold over the records, inserting each object-payload field name once. -/
def collectKeys (recs : List Record) : List String :=
  recs.foldl
    (fun acc r =>
      (r.data.fieldNames).foldl (fun acc2 k => if k ∈ acc2 then acc2 else acc2 ++ [k]) acc)
    []

/-- `DataManager::collect_headers` from src/data.rs: for every record type,
headers are `"key"` followed by the sorted distinct object field names of
that type's records. (The Rust `HashSet` is modelled by
insert-if-absent accumulation; its arbitrary iteration order is erased by the
subsequent sort.) -/
def collect_headers (records : RecordsMap) : HeadersMap :=
  records.map fun p => (p.1, "key" :: (collectKeys p.2).mergeSort strLe)

/-! ### Navigation / view state (src/app.rs) -/

/-- `enum Focus` from src/app.rs. -/
inductive Focus where
  | Input : Focus
  | TableSelect : Focus
  | Table : Focus
  | Pages : Focus
deriving DecidableEq

/-- `struct App` from src/app.rs, restricted to the fields the core logic
reads or writes. `rows_per_page` is referenced throughout src/events.rs
(its field declaration is missing from the app.rs revision in the tree);
`data_manager` is inlined as the `records`/`headers` fields. -/
structure App where
  records : RecordsMap
  headers : HeadersMap
  input : String
  focus : Focus
  selected_table : Option String
  selected_row : Option Nat
  show_raw_data : Option String
  table_select_index : Nat
  sort_column : Option Nat
  sort_ascending : Bool
  current_page : Nat
  page_focus : Bool
  rows_per_page : Nat
  scroll_y : Nat
  should_quit : Bool

/-- The record types visible to the UI, sorted: every use site in the source
does `keys().cloned().collect()` followed by `sort()`. -/
def App.sortedTypes (a : App) : List String :=
  (a.records.map Prod.fst).mergeSort strLe

/-- Rust `str::contains` (substring test), modelled as infix of the
character lists. -/
def substrB (hay needle : String) : Bool := decide (needle.data <:+: hay.data)

/-- `f64::partial_cmp` on two parsed (finite) numbers: the standard total
comparison on the rational values. -/
def ratCompare (x y : Rat) : Ordering :=
  if x < y then .lt else if x = y then .eq else .gt

/-- Rust `Ord::cmp` on `&str`: lexicographic string comparison. -/
def strCompare (x y : String) : Ordering :=
  if x < y then .lt else if x = y then .eq else .gt

/-- The comparison closure inside `App::get_filtered_records`
(src/app.rs lines 141-160) applied to the two stringified cells: if both
parse as numbers compare numerically, else lexicographically; direction
from `sort_ascending`. -/
def cmpCell (asc : Bool) (av bv : String) : Ordering :=
  match parseF64? av, parseF64? bv with
  | some x, some y => if asc then ratCompare x y else ratCompare y x
  | some _, none => if asc then strCompare av bv else strCompare bv av
  | none, some _ => if asc then strCompare av bv else strCompare bv av
  | none, none => if asc then strCompare av bv else strCompare bv av

/-- Stringified cell of a record at the sort column:
`row.get(sort_col).map(|s| s.as_str()).unwrap_or("")`. -/
def cellStr (headers : List String) (col : Nat) (r : Record) : String :=
  ((r.to_table_row headers).get? col).getD ""

/-- The full comparator passed to `sort_by` in `App::get_filtered_records`. -/
def recordCmp (headers : List String) (col : Nat) (asc : Bool) (a b : Record) : Ordering :=
  cmpCell asc (cellStr headers col a) (cellStr headers col b)

/-- `App::get_filtered_records` from src/app.rs. `none` models the panics:
the `unwrap` on the records lookup (line 136) and the `unwrap` on the
headers lookup inside the sort closure (line 142). Rust `sort_by` is a
stable sort, modelled by `List.mergeSort` with `le a b := cmp a b ≠ gt`. -/
def App.get_filtered_records (a : App) (record_type : String) : Option (List Record) :=
  match List.lookup record_type a.records with
  | none => none
  | some recs =>
    let recs := if a.input = "" then recs else recs.filter fun r => substrB r.key a.input
    match a.sort_column with
    | none => some recs
    | some sort_col =>
      match List.lookup record_type a.headers with
      | none => none
      | some hs => some (recs.mergeSort fun x y => recordCmp hs sort_col a.sort_ascending x y ≠ .gt)

/-- `App::get_total_pages` from src/app.rs: `ceil(len / height)`, minimum 1
when empty. `none` models the panics (absent type via
`get_filtered_records`, division by zero when `height = 0` and the list is
nonempty). -/
def App.get_total_pages (a : App) (record_type : String) (height : Nat) : Option Nat :=
  match a.get_filtered_records record_type with
  | none => none
  | some records =>
    if records.isEmpty then some 1
    else if height = 0 then none
    else some ((records.length + height - 1) / height)

/-- `App::visible_page_indices` from src/app.rs. The `BTreeSet` is modelled
as a `Finset` read out in ascending order. -/
def App.visible_page_indices (a : App) (total_pages : Nat) : List Nat :=
  if total_pages = 0 then []
  else
    let last := total_pages - 1
    let start := a.current_page - 3
    let stop := min (a.current_page + 3) last
    let s : Finset Nat :=
      (insert 0 (insert last (Finset.Icc start stop))) ∪
      (if a.current_page < 5 then Finset.Icc 0 (min 5 last) else ∅) ∪
      (if 5 < last ∧ last - 5 < a.current_page then Finset.Icc (last - 5) last else ∅)
    s.sort (· ≤ ·)

/-! ### Background loader (src/data.rs) -/

/-- `struct FullDataLoader` from src/data.rs; `SystemTime` is modelled as
nanoseconds since the UNIX epoch (`Nat`), so `UNIX_EPOCH = 0`. -/
structure FullDataLoader where
  db_path : String
  last_load_time : Nat

/-- `FullDataLoader::new` from src/data.rs. -/
def FullDataLoader.new (db_path : String) : FullDataLoader :=
  { db_path := db_path, last_load_time := 0 }

/-- `FullDataLoader::has_changed` from src/data.rs. The filesystem is an
external collaborator: `mtime` is the modification time of `db_path` at the
moment of the call (`none` when the metadata cannot be read). -/
def FullDataLoader.has_changed (l : FullDataLoader) (mtime : Option Nat) : Bool :=
  match mtime with
  | some modified => decide (l.last_load_time < modified)
  | none => false

/-- One iteration of the loop in `DataManager::start_background_loading`
(src/data.rs lines 82-92): if `has_changed` then load and send the snapshot.
The loader is captured by the closure and only ever used through `&self`,
so the iteration hands back the loader unchanged; `snapshot` stands for the
result of `load_records()` against the store at this tick. -/
def backgroundTick (l : FullDataLoader) (mtime : Option Nat) (snapshot : RecordsMap) :
    FullDataLoader × Option RecordsMap :=
  if l.has_changed mtime then (l, some snapshot) else (l, none)

/-- The background loop run for finitely many ticks; each tick supplies the
store's modification time and current contents, and the run records what was
published at each tick. -/
def backgroundRun (l : FullDataLoader) : List (Option Nat × RecordsMap) →
    FullDataLoader × List (Option RecordsMap)
  | [] => (l, [])
  | (mtime, snap) :: rest =>
    let step := backgroundTick l mtime snap
    let r := backgroundRun step.1 rest
    (r.1, step.2 :: r.2)

/-! ### Event handling (src/events.rs) -/

/-- The `crossterm::event::KeyCode` constructors matched in src/events.rs. -/
inductive KeyCode where
  | tab : KeyCode
  | backTab : KeyCode
  | esc : KeyCode
  | enter : KeyCode
  | backspace : KeyCode
  | up : KeyCode
  | down : KeyCode
  | left : KeyCode
  | right : KeyCode
  | pageUp : KeyCode
  | pageDown : KeyCode
  | char (c : Char) : KeyCode
deriving DecidableEq

/-- A key event: code plus whether the CONTROL modifier is held. -/
structure KeyEvent where
  code : KeyCode
  ctrl : Bool

/-- Outcome of the store interaction in the delete branch of
`handle_table_key`: `DB::open` may fail, `db.delete` may fail, or both
succeed. The store is an external collaborator, so the outcome is an input
of the model. -/
inductive DeleteOutcome where
  | openErr (e : String) : DeleteOutcome
  | deleteErr (e : String) : DeleteOutcome
  | ok : DeleteOutcome

/-- Lowercase hex digit of `d < 16`. -/
def hexDigit (d : Nat) : Char :=
  if d < 10 then Char.ofNat (48 + d) else Char.ofNat (97 + (d - 10))

/-- Rust `format!("\x7b:02x\x7d", byte)` for one byte. -/
def byteHex (n : Nat) : String :=
  String.mk [hexDigit (n / 16 % 16), hexDigit (n % 16)]

/-- The hex dump built in the inspect/delete code paths of src/events.rs. -/
def hexDump (bytes : List Nat) : String :=
  String.intercalate " " (bytes.map byteHex)

/-- `handle_input_key` from src/events.rs. -/
def handle_input_key (k : KeyCode) (a : App) : App :=
  match k with
  | .tab =>
    if a.selected_table.isNone then
      if a.sortedTypes ≠ [] then
        { a with focus := .TableSelect, table_select_index := 0 }
      else a
    else { a with focus := .Table }
  | .enter => a
  | .backspace => { a with input := a.input.dropRight 1 }
  | .char c => { a with input := a.input.push c }
  | _ => a

/-- `handle_table_select_key` from src/events.rs. -/
def handle_table_select_key (k : KeyCode) (a : App) : App :=
  match k with
  | .tab => { a with focus := .Input, selected_table := none, selected_row := none }
  | .enter =>
    match a.sortedTypes.get? a.table_select_index with
    | some t =>
      { a with selected_table := some t, selected_row := some 0, focus := .Table,
               sort_column := none, sort_ascending := true, current_page := 0 }
    | none => a
  | .up => if 0 < a.table_select_index then { a with table_select_index := a.table_select_index - 1 } else a
  | .down =>
    if a.table_select_index < a.sortedTypes.length - 1 then
      { a with table_select_index := a.table_select_index + 1 }
    else a
  | _ => a

/-- `handle_pages_key` from src/events.rs. `none` models a panic propagated
from `get_total_pages`. The `as u16` narrowing of the height is `% 65536`. -/
def handle_pages_key (k : KeyCode) (a : App) : Option App :=
  match k with
  | .tab => some { a with focus := .Input, page_focus := false }
  | .esc => some { a with focus := .Table, page_focus := false }
  | .left => some (if 0 < a.current_page then { a with current_page := a.current_page - 1 } else a)
  | .right =>
    match a.selected_table with
    | none => some a
    | some table =>
      let height := (max a.rows_per_page 1) % 65536
      match a.get_total_pages table height with
      | none => none
      | some total_pages =>
        if a.current_page + 1 < total_pages then
          let cp := a.current_page + 1
          let start_idx := cp * (max a.rows_per_page 1)
          let sel := match a.selected_row with
            | some s => if s < start_idx then some start_idx else some s
            | none => some start_idx
          some { a with current_page := cp, scroll_y := start_idx % 65536, selected_row := sel }
        else some a
  | _ => some a

/-- `handle_navigation_up` from src/events.rs. -/
def handle_navigation_up (a : App) : Option App :=
  match a.selected_table with
  | some table =>
    match a.get_filtered_records table with
    | none => none
    | some filtered =>
      if filtered.isEmpty then some a
      else
        match a.selected_row with
        | some row =>
          if 0 < row then
            let new_row := row - 1
            let rpp := max a.rows_per_page 1
            let start_idx := a.current_page * rpp
            if new_row < start_idx then
              let cp := a.current_page - 1
              some { a with selected_row := some new_row, current_page := cp,
                            scroll_y := (cp * rpp) % 65536 }
            else some { a with selected_row := some new_row }
          else some a
        | none => some { a with selected_row := some 0 }
  | none =>
    match a.sortedTypes.head? with
    | some table => some { a with selected_table := some table, selected_row := some 0 }
    | none => some a

/-- `handle_navigation_down` from src/events.rs. -/
def handle_navigation_down (a : App) : Option App :=
  match a.selected_table with
  | some table =>
    match a.get_filtered_records table with
    | none => none
    | some filtered =>
      if filtered.isEmpty then some a
      else
        let max_row := filtered.length - 1
        match a.selected_row with
        | some row =>
          if row < max_row then
            let new_row := row + 1
            let rpp := max a.rows_per_page 1
            let start_idx := a.current_page * rpp
            if start_idx + rpp ≤ new_row then
              let cp := a.current_page + 1
              some { a with selected_row := some new_row, current_page := cp,
                            scroll_y := (cp * rpp) % 65536 }
            else some { a with selected_row := some new_row }
          else some a
        | none => some { a with selected_row := some 0 }
  | none =>
    match a.sortedTypes.head? with
    | some table => some { a with selected_table := some table, selected_row := some 0 }
    | none => some a

/-- `handle_table_key` from src/events.rs. The store interaction of the
delete branch is supplied as `out`; `none` models a propagated panic. -/
def handle_table_key (k : KeyCode) (out : DeleteOutcome) (a : App) : Option App :=
  match k with
  | .tab => some { a with focus := .Pages, page_focus := true }
  | .backTab =>
    match a.selected_table with
    | some current_table =>
      let types := a.sortedTypes
      match types.findIdx? (fun t => t == current_table) with
      | some current_index =>
        if 0 < current_index then
          match types.get? (current_index - 1) with
          | some prev => some { a with selected_table := some prev, selected_row := some 0,
                                       sort_column := none, sort_ascending := true }
          | none => none
        else some { a with focus := .Input }
      | none => some a
    | none => some { a with focus := .Input }
  | .pageDown =>
    match a.selected_table with
    | none => some a
    | some table =>
      let height := (max a.rows_per_page 1) % 65536
      match a.get_total_pages table height with
      | none => none
      | some total_pages =>
        if a.current_page + 1 < total_pages then
          let cp := a.current_page + 1
          let start_idx := cp * (max a.rows_per_page 1)
          some { a with current_page := cp, scroll_y := start_idx % 65536,
                        selected_row := some start_idx }
        else some a
  | .pageUp =>
    if 0 < a.current_page then
      let cp := a.current_page - 1
      let start_idx := cp * (max a.rows_per_page 1)
      let sel := (a.selected_row.getD start_idx).max start_idx
      some { a with current_page := cp, scroll_y := start_idx % 65536,
                    selected_row := some sel }
    else some a
  | .char c =>
    if c = 'r' then
      match a.selected_table, a.selected_row with
      | some table, some row =>
        match a.get_filtered_records table with
        | none => none
        | some filtered =>
          match filtered.get? row with
          | some record =>
            let msg := "raw data for " ++ record.key ++ ":\n" ++ hexDump record.raw_data
            some { a with show_raw_data := some msg }
          | none => some a
      | _, _ => some a
    else if c = 'd' then
      match a.selected_table, a.selected_row with
      | some table, some row =>
        match a.get_filtered_records table with
        | none => none
        | some filtered =>
          match filtered.get? row with
          | some sel =>
            let key_to_remove := sel.key
            match out with
            | .openErr e =>
              some { a with show_raw_data := some ("Error opening DB: " ++ e) }
            | .deleteErr e =>
              let msg := "Error deleting key " ++ key_to_remove ++ ": " ++ e
              some { a with show_raw_data := some msg }
            | .ok =>
              let records2 := delete_record a.records table key_to_remove
              let msg := "Successfully deleted key: " ++ key_to_remove
              let a2 := { a with records := records2, show_raw_data := some msg }
              match List.lookup table records2 with
              | none => some { a2 with selected_table := none, selected_row := none }
              | some rs =>
                if rs.isEmpty then
                  some { a2 with selected_table := none, selected_row := none }
                else
                  some { a2 with selected_row := some (min row (rs.length - 1)) }
          | none => some a
      | _, _ => some a
    else some a
  | .up => handle_navigation_up a
  | .down => handle_navigation_down a
  | _ => some a

/-- `handle_key_event` from src/events.rs: Ctrl-C sets `should_quit`, Esc
from Table/Input/Pages returns to type selection clearing the selection,
anything else dispatches on the focus. -/
def handle_key_event (k : KeyEvent) (out : DeleteOutcome) (a : App) : Option App :=
  if k.code = .char 'c' ∧ k.ctrl then some { a with should_quit := true }
  else if k.code = .esc ∧ (a.focus = .Table ∨ a.focus = .Input ∨ a.focus = .Pages) then
    some { a with focus := .TableSelect, selected_table := none, selected_row := none }
  else
    match a.focus with
    | .Input => some (handle_input_key k.code a)
    | .TableSelect => some (handle_table_select_key k.code a)
    | .Table => handle_table_key k.code out a
    | .Pages => handle_pages_key k.code a

/-! ### Derived predicates and concrete sample states used in the theorems -/

/-- Whether a JSON value is an object (`serde_json::Value::Object`). -/
def Json.isObj : Json → Bool
  | .obj _ => true
  | _ => false

/-- Numeric value of a record's sort cell under the model parse
(default 0 when the cell does not parse; only used under the hypothesis that
it does). -/
def numVal (hs : List String) (col : Nat) (r : Record) : Rat :=
  (parseF64? (cellStr hs col r)).getD 0

/-- The pagination invariant of the specification: whenever a type is
selected, `current_page` is strictly below the page count computed from the
current filtered row list (with the page height the event handlers use). -/
def pageInv (a : App) : Prop :=
  ∀ t, a.selected_table = some t →
    ∀ tp, a.get_total_pages t ((max a.rows_per_page 1) % 65536) = some tp →
      a.current_page < tp

/-- Baseline application state (the fields `App::new` initializes, with an
empty snapshot and a page height of 5 rows). -/
def app0 : App :=
  { records := [], headers := [], input := "", focus := .TableSelect,
    selected_table := none, selected_row := none, show_raw_data := none,
    table_select_index := 0, sort_column := none, sort_ascending := true,
    current_page := 0, page_focus := false, rows_per_page := 5, scroll_y := 0,
    should_quit := false }

/-- Sample record of type `a`. -/
def recA1 : Record :=
  { record_type := "a", key := "a:1", data := .str "x", raw_data := [0] }

/-- Second sample record of type `a`. -/
def recA2 : Record :=
  { record_type := "a", key := "a:2", data := .str "y", raw_data := [1] }

/-- Sample record whose key is the numeral `10`. -/
def recN10 : Record :=
  { record_type := "n", key := "10", data := .null, raw_data := [] }

/-- Sample record whose key is the numeral `2`. -/
def recN2 : Record :=
  { record_type := "n", key := "2", data := .null, raw_data := [] }

/-- Sample record with an object payload. -/
def recObj : Record :=
  { record_type := "a", key := "a:3", data := .obj [("beta", .num 1), ("alpha", .str "v")],
    raw_data := [] }

/-- App state with one type `a` holding two records. -/
def appA : App :=
  { app0 with records := [("a", [recA1, recA2])], headers := [("a", ["key"])],
              focus := .Table, selected_table := some "a", selected_row := some 0 }

/-- App state used for the pagination counterexample: one row per page, two
rows, currently on the second page, focus in the filter input. -/
def appC4 : App :=
  { app0 with records := [("a", [recA1, recA2])], headers := [("a", ["key"])],
              focus := .Input, selected_table := some "a", selected_row := some 0,
              rows_per_page := 1, current_page := 1 }

/-- App state with two types, no type selected, Table focus. -/
def appBA : App :=
  { app0 with records := [("b", [recA1]), ("a", [recA2])],
              headers := [("b", ["key"]), ("a", ["key"])], focus := .Table }

/-- App state sorting type `n` by the key column ascending. -/
def appN : App :=
  { app0 with records := [("n", [recN10, recN2])], headers := [("n", ["key"])],
              focus := .Table, selected_table := some "n", selected_row := some 0,
              sort_column := some 0 }

/-- The filtered-and-sorted list `appN.get_filtered_records "n"` produces
(the sort comparator written exactly as in `get_filtered_records`). -/
def appNList : List Record :=
  ([recN10, recN2]).mergeSort fun x y => recordCmp ["key"] 0 true x y ≠ .gt

/-! ### Helper lemmas -/

theorem strLe_trans : ∀ a b c : String, strLe a b → strLe b c → strLe a c := by
  intro a b c hab hbc
  simp only [strLe, decide_eq_true_eq] at *
  exact le_trans hab hbc

theorem strLe_total : ∀ a b : String, strLe a b || strLe b a := by
  intro a b
  simp only [strLe, Bool.or_eq_true, decide_eq_true_eq]
  exact le_total a b

/-- `List.merge` only inspects the comparator on pairs drawn from its two
arguments, so comparators that agree there give the same merge. -/
theorem merge_congr {α : Type} (le₁ le₂ : α → α → Bool) :
    ∀ (xs ys : List α), (∀ x ∈ xs, ∀ y ∈ ys, le₁ x y = le₂ x y) →
      List.merge xs ys le₁ = List.merge xs ys le₂
  | [], ys, _ => by simp
  | x :: xs, [], _ => by simp
  | x :: xs, y :: ys, h => by
    have hxy : le₁ x y = le₂ x y := h x (by simp) y (by simp)
    simp only [List.merge, hxy]
    by_cases hc : le₂ x y = true
    · rw [if_pos hc, if_pos hc,
        merge_congr le₁ le₂ xs (y :: ys) (fun u hu v hv => h u (by simp [hu]) v hv)]
    · rw [if_neg hc, if_neg hc,
        merge_congr le₁ le₂ (x :: xs) ys (fun u hu v hv => h u hu v (by simp [hv]))]
termination_by xs ys => xs.length + ys.length

/-- `List.mergeSort` only inspects the comparator on pairs of list elements,
so comparators that agree on the list sort it identically. -/
theorem mergeSort_congr {α : Type} (le₁ le₂ : α → α → Bool) :
    ∀ (l : List α), (∀ x ∈ l, ∀ y ∈ l, le₁ x y = le₂ x y) →
      l.mergeSort le₁ = l.mergeSort le₂
  | [], _ => by simp
  | [a], _ => by simp
  | a :: b :: xs, h => by
    have hl1 : (List.splitInTwo ⟨a :: b :: xs, rfl⟩).1.1.length < xs.length + 1 + 1 := by
      simp [List.splitInTwo_fst]; omega
    have hl2 : (List.splitInTwo ⟨a :: b :: xs, rfl⟩).2.1.length < xs.length + 1 + 1 := by
      simp [List.splitInTwo_snd]; omega
    have hsub1 : ∀ x ∈ (List.splitInTwo ⟨a :: b :: xs, rfl⟩).1.1, x ∈ a :: b :: xs := by
      intro x hx
      have hx2 : x ∈ (List.splitInTwo ⟨a :: b :: xs, rfl⟩).1.1 ++
          (List.splitInTwo ⟨a :: b :: xs, rfl⟩).2.1 := List.mem_append_left _ hx
      rw [List.splitInTwo_fst_append_splitInTwo_snd] at hx2
      exact hx2
    have hsub2 : ∀ x ∈ (List.splitInTwo ⟨a :: b :: xs, rfl⟩).2.1, x ∈ a :: b :: xs := by
      intro x hx
      have hx2 : x ∈ (List.splitInTwo ⟨a :: b :: xs, rfl⟩).1.1 ++
          (List.splitInTwo ⟨a :: b :: xs, rfl⟩).2.1 := List.mem_append_right _ hx
      rw [List.splitInTwo_fst_append_splitInTwo_snd] at hx2
      exact hx2
    rw [List.mergeSort, List.mergeSort]
    rw [mergeSort_congr le₁ le₂ (List.splitInTwo ⟨a :: b :: xs, rfl⟩).1.1
      (fun x hx y hy => h x (hsub1 x hx) y (hsub1 y hy))]
    rw [mergeSort_congr le₁ le₂ (List.splitInTwo ⟨a :: b :: xs, rfl⟩).2.1
      (fun x hx y hy => h x (hsub2 x hx) y (hsub2 y hy))]
    exact merge_congr le₁ le₂ _ _ (fun x hx y hy =>
      h x (hsub1 x (List.mem_mergeSort.mp hx)) y (hsub2 y (List.mem_mergeSort.mp hy)))
termination_by l => l.length

/-- Membership in the page-index list, written out as arithmetic. -/
theorem visible_mem_iff (a : App) (tp : Nat) (h : tp ≠ 0) (i : Nat) :
    i ∈ a.visible_page_indices tp ↔
      (i = 0 ∨ i = tp - 1 ∨
       (a.current_page - 3 ≤ i ∧ i ≤ a.current_page + 3 ∧ i ≤ tp - 1) ∨
       (a.current_page < 5 ∧ i ≤ 5 ∧ i ≤ tp - 1) ∨
       (5 < tp - 1 ∧ tp - 1 - 5 < a.current_page ∧ tp - 1 - 5 ≤ i ∧ i ≤ tp - 1)) := by
  simp only [App.visible_page_indices, if_neg h, Finset.mem_sort, Finset.mem_union,
    Finset.mem_insert, Finset.mem_Icc, inf_eq_min, le_min_iff]
  split_ifs with h1 h2 <;>
    simp only [Finset.mem_Icc, Finset.not_mem_empty, inf_eq_min, le_min_iff, or_false,
      false_or] <;>
    constructor <;> intro hx <;> omega

/-- Two strictly sorted lists of naturals with the same members are equal. -/
theorem sorted_nat_list_ext {l₁ l₂ : List Nat} (h₁ : l₁.Sorted (· < ·))
    (h₂ : l₂.Sorted (· < ·)) (hm : ∀ i, i ∈ l₁ ↔ i ∈ l₂) : l₁ = l₂ := by
  have hp : List.Perm l₁ l₂ := (List.perm_ext_iff_of_nodup h₁.nodup h₂.nodup).mpr hm
  exact List.eq_of_perm_of_sorted hp (h₁.imp le_of_lt) (h₂.imp le_of_lt)

/-- `List.lookup` through a value-mapping of an association list. -/
theorem lookup_map_pair {β γ : Type} (f : String → β → γ) (l : List (String × β)) (k : String) :
    List.lookup k (l.map fun p => (p.1, f p.1 p.2)) = (List.lookup k l).map (f k) := by
  induction l with
  | nil => rfl
  | cons p rest ih =>
    obtain ⟨k2, v⟩ := p
    simp only [List.map, List.lookup]
    cases hkk : k == k2 with
    | true =>
      have : k = k2 := eq_of_beq hkk
      subst this
      simp
    | false => simpa using ih

/-- Membership after the insert-if-absent fold over a list of keys. -/
theorem mem_insert_fold (ks : List String) :
    ∀ (acc : List String) (s : String),
      s ∈ ks.foldl (fun acc2 k => if k ∈ acc2 then acc2 else acc2 ++ [k]) acc ↔
        s ∈ acc ∨ s ∈ ks := by
  induction ks with
  | nil => simp
  | cons k rest ih =>
    intro acc s
    simp only [List.foldl]
    by_cases h : k ∈ acc
    · rw [if_pos h, ih]
      constructor
      · intro hx; rcases hx with hx | hx
        · exact Or.inl hx
        · exact Or.inr (List.mem_cons_of_mem _ hx)
      · intro hx; rcases hx with hx | hx
        · exact Or.inl hx
        · rcases List.mem_cons.mp hx with rfl | hx
          · exact Or.inl h
          · exact Or.inr hx
    · rw [if_neg h, ih]
      simp only [List.mem_append, List.mem_singleton, List.mem_cons]
      tauto

/-- The insert-if-absent fold preserves `Nodup`. -/
theorem nodup_insert_fold (ks : List String) :
    ∀ (acc : List String), acc.Nodup →
      (ks.foldl (fun acc2 k => if k ∈ acc2 then acc2 else acc2 ++ [k]) acc).Nodup := by
  induction ks with
  | nil => intro acc h; simpa using h
  | cons k rest ih =>
    intro acc h
    simp only [List.foldl]
    by_cases hk : k ∈ acc
    · rw [if_pos hk]; exact ih acc h
    · rw [if_neg hk]
      refine ih _ ?_
      simp [List.nodup_append, h, hk]

/-- Membership in `collectKeys`. -/
theorem mem_collectKeys (recs : List Record) (s : String) :
    s ∈ collectKeys recs ↔ ∃ r ∈ recs, s ∈ r.data.fieldNames := by
  have main : ∀ (l : List Record) (acc : List String),
      s ∈ l.foldl
          (fun acc r =>
            (r.data.fieldNames).foldl
              (fun acc2 k => if k ∈ acc2 then acc2 else acc2 ++ [k]) acc)
          acc ↔
        s ∈ acc ∨ ∃ r ∈ l, s ∈ r.data.fieldNames := by
    intro l
    induction l with
    | nil => simp
    | cons r rest ih =>
      intro acc
      simp only [List.foldl]
      rw [ih, mem_insert_fold]
      simp only [List.mem_cons]
      constructor
      · intro hx
        rcases hx with (hx | hx) | ⟨r2, hr2, hs2⟩
        · exact Or.inl hx
        · exact Or.inr ⟨r, Or.inl rfl, hx⟩
        · exact Or.inr ⟨r2, Or.inr hr2, hs2⟩
      · intro hx
        rcases hx with hx | ⟨r2, hr2 | hr2, hs2⟩
        · exact Or.inl (Or.inl hx)
        · subst hr2; exact Or.inl (Or.inr hs2)
        · exact Or.inr ⟨r2, hr2, hs2⟩
  rw [collectKeys, main]
  simp

/-- `collectKeys` has no duplicates. -/
theorem nodup_collectKeys (recs : List Record) : (collectKeys recs).Nodup := by
  have main : ∀ (l : List Record) (acc : List String), acc.Nodup →
      (l.foldl
        (fun acc r =>
          (r.data.fieldNames).foldl
            (fun acc2 k => if k ∈ acc2 then acc2 else acc2 ++ [k]) acc)
        acc).Nodup := by
    intro l
    induction l with
    | nil => intro acc h; simpa using h
    | cons r rest ih =>
      intro acc h
      simp only [List.foldl]
      exact ih _ (nodup_insert_fold _ acc h)
  exact main recs [] (by simp)

/-- `backgroundTick` never changes the loader and publishes exactly when
`has_changed` fires. -/
theorem backgroundTick_eq (l : FullDataLoader) (mt : Option Nat) (snap : RecordsMap) :
    backgroundTick l mt snap = (l, if l.has_changed mt then some snap else none) := by
  rw [backgroundTick]
  split <;> simp_all

theorem splitOnChar_ne_nil (delim : Char) : ∀ cs : List Char, splitOnChar delim cs ≠ []
  | [] => by simp [splitOnChar]
  | c :: cs => by
    simp only [splitOnChar]
    cases hs : splitOnChar delim cs with
    | nil => simp
    | cons s rest => by_cases hc : c = delim <;> simp [hc]

/-- The first segment of the split is the longest delimiter-free prefix. -/
theorem splitOnChar_head (delim : Char) (cs : List Char) :
    (splitOnChar delim cs).head? = some (cs.takeWhile fun c => !(c == delim)) := by
  induction cs with
  | nil => rfl
  | cons c cs ih =>
    simp only [splitOnChar]
    cases hs : splitOnChar delim cs with
    | nil => exact absurd hs (splitOnChar_ne_nil delim cs)
    | cons s rest =>
      rw [hs] at ih
      by_cases hc : c = delim
      · simp [hc, List.takeWhile]
      · simp only [if_neg hc, List.takeWhile, List.head?]
        have hceq : (c == delim) = false := by simp [hc]
        rw [hceq]
        simp only [Bool.not_false, cond_true]
        have : s = List.takeWhile (fun c => !(c == delim)) cs := by
          simpa using ih
        rw [this]

/-! ### Claim theorems -/

/-- C8: `deserialize_record` never fails (it is a total function); the
resulting `record_type` is the first segment of the key split on `:`
(falling back to `"unknown"` only when the split produces no segment at
all), the payload is the structured decode when it succeeds and exactly the
single-field object `("value", lossy bytes)` when it fails, and the key and
raw bytes are kept verbatim. -/
theorem c8_deserialize_record_spec (decode : List Nat → Option Json)
    (lossy : List Nat → String) (key : String) (value : List Nat) :
    (deserialize_record decode lossy key value).record_type
        = ((((splitOnChar ':' key.data).map fun l => String.mk l).head?).getD "unknown") ∧
    (deserialize_record decode lossy key value).record_type
        = String.mk (key.data.takeWhile fun c => !(c == ':')) ∧
    (deserialize_record decode lossy key value).key = key ∧
    (deserialize_record decode lossy key value).raw_data = value ∧
    (∀ j, decode value = some j → (deserialize_record decode lossy key value).data = j) ∧
    (decode value = none →
      (deserialize_record decode lossy key value).data
        = Json.obj [("value", Json.str (lossy value))]) := by
  refine ⟨rfl, ?_, rfl, rfl, ?_, ?_⟩
  · show ((((splitOnChar ':' key.data).map fun l => String.mk l).head?).getD "unknown")
        = String.mk (key.data.takeWhile fun c => !(c == ':'))
    rw [List.head?_map, splitOnChar_head]
    rfl
  · intro j hj
    simp [deserialize_record, hj]
  · intro hj
    simp [deserialize_record, hj]

/-- C8 witness: evaluation at a concrete key and a failing decode. -/
theorem c8_deserialize_record_spec_witness :
    (deserialize_record (fun _ => none) (fun _ => "ab") "user:1" [1, 2]).record_type
        = "user" ∧
    (deserialize_record (fun _ => none) (fun _ => "ab") "user:1" [1, 2]).data
        = Json.obj [("value", Json.str "ab")] := by
  refine ⟨?_, ?_⟩
  · exact ((c8_deserialize_record_spec (fun _ => none) (fun _ => "ab") "user:1" [1, 2]).2.1).trans
      (by decide)
  · exact (c8_deserialize_record_spec (fun _ => none) (fun _ => "ab") "user:1" [1, 2]).2.2.2.2.2 rfl

/-- C1: for a record type absent from the snapshot, `get_filtered_records`
panics (`unwrap` of a missing `HashMap` entry, modelled as `none`) instead
of returning an empty row list, and `get_total_pages` panics with it instead
of returning 1. -/
theorem c1_missing_type_panics (a : App) (t : String)
    (h : List.lookup t a.records = none) :
    a.get_filtered_records t = none ∧ ∀ height, a.get_total_pages t height = none := by
  have h1 : a.get_filtered_records t = none := by
    simp [App.get_filtered_records, h]
  refine ⟨h1, fun height => ?_⟩
  simp [App.get_total_pages, h1]

/-- C1 witness: the empty snapshot with type `t`. -/
theorem c1_missing_type_panics_witness :
    app0.get_filtered_records "t" = none ∧ app0.get_total_pages "t" 5 = none :=
  ⟨(c1_missing_type_panics app0 "t" rfl).1, (c1_missing_type_panics app0 "t" rfl).2 5⟩

/-- C3: a loader built by `FullDataLoader::new` carries `last_load_time =
UNIX_EPOCH` and no operation of the background loop ever updates it, so
`has_changed` is true exactly when the store's modification time is readable
and later than the epoch, and the loop republishes a full snapshot at every
tick with such a modification time. -/
theorem c3_loader_reloads_every_tick (p : String)
    (ticks : List (Option Nat × RecordsMap)) :
    (backgroundRun (FullDataLoader.new p) ticks).1 = FullDataLoader.new p ∧
    (backgroundRun (FullDataLoader.new p) ticks).2 =
      ticks.map (fun t =>
        match t.1 with
        | some m => if 0 < m then some t.2 else none
        | none => none) ∧
    (∀ mtime, (FullDataLoader.new p).has_changed mtime = true ↔
      ∃ m, mtime = some m ∧ 0 < m) := by
  have hch : ∀ mtime, (FullDataLoader.new p).has_changed mtime
      = match mtime with
        | some m => decide (0 < m)
        | none => false := by
    intro mtime; cases mtime <;> rfl
  refine ⟨?_, ?_, ?_⟩
  · induction ticks with
    | nil => rfl
    | cons t rest ih =>
      obtain ⟨mt, snap⟩ := t
      simp only [backgroundRun, backgroundTick_eq]
      exact ih
  · induction ticks with
    | nil => rfl
    | cons t rest ih =>
      obtain ⟨mt, snap⟩ := t
      simp only [backgroundRun, backgroundTick_eq, List.map]
      refine congrArg₂ _ ?_ ih
      rw [hch]
      cases mt with
      | none => rfl
      | some m => by_cases hm : 0 < m <;> simp [hm]
  · intro mtime
    rw [hch]
    cases mtime with
    | none => simp
    | some m => by_cases hm : 0 < m <;> simp [hm]

/-- C3 witness: one tick with a readable, positive modification time
publishes the loaded snapshot. -/
theorem c3_loader_reloads_every_tick_witness :
    (backgroundRun (FullDataLoader.new "db") [(some 1, [])]).2 = [some []] ∧
    ((FullDataLoader.new "db").has_changed (some 1) = true ↔
      ∃ m, (some 1 : Option Nat) = some m ∧ 0 < m) :=
  ⟨((c3_loader_reloads_every_tick "db" [(some 1, [])]).2.1).trans rfl,
   (c3_loader_reloads_every_tick "db" [(some 1, [])]).2.2 (some 1)⟩

/-- C9: `visible_page_indices` is empty exactly for `total_pages = 0`; for
positive `total_pages` every returned index is strictly below `total_pages`
(for any `current_page`, even out of range) and the list is strictly
increasing, hence duplicate-free. -/
theorem c9_visible_page_indices_bounds (a : App) (tp : Nat) :
    (tp = 0 → a.visible_page_indices tp = []) ∧
    (0 < tp →
      (∀ i ∈ a.visible_page_indices tp, i < tp) ∧
      (a.visible_page_indices tp).Sorted (· < ·)) := by
  constructor
  · intro h
    simp [App.visible_page_indices, h]
  · intro h
    have h0 : tp ≠ 0 := by omega
    constructor
    · intro i hi
      rw [visible_mem_iff a tp h0 i] at hi
      omega
    · rw [App.visible_page_indices, if_neg h0]
      exact Finset.sort_sorted_lt _

/-- C9 witness: concrete instantiation at 7 pages. -/
theorem c9_visible_page_indices_bounds_witness :
    (∀ i ∈ app0.visible_page_indices 7, i < 7) ∧
    app0.visible_page_indices 0 = [] :=
  ⟨((c9_visible_page_indices_bounds app0 7).2 (by decide)).1,
   (c9_visible_page_indices_bounds app0 0).1 rfl⟩

/-- C5 counterexample: the claim asserts pages `0..5` are all visible
whenever `current_page < 6`, but at `current_page = 5` (with 20 total pages)
the code only applies the near-start rule for `current_page < 5`, and page 1
is missing from the result. -/
theorem c5_counterexample_page_one_missing :
    ({ app0 with current_page := 5 } : App).current_page < 6 ∧
    (1 : Nat) ∉ ({ app0 with current_page := 5 } : App).visible_page_indices 20 := by
  refine ⟨by decide, ?_⟩
  intro h
  rw [visible_mem_iff _ 20 (by decide) 1] at h
  have hcp : ({ app0 with current_page := 5 } : App).current_page = 5 := rfl
  rw [hcp] at h
  omega

/-- C5 (amended): for `1 ≤ total_pages` and `current_page < total_pages`,
the visible page set contains 0 and the last page, the ±3 window around the
current page, pages `0..5` whenever `current_page < 5` (not `< 6` as
claimed), and the last 6 pages whenever `last > 5` and `current_page >
last - 5` (within 4 of the last page, not 5 as claimed); the result is
strictly increasing, for `total_pages = 20, current_page = 10` it contains
`{0, 19}` and `{7,...,13}`, and for `total_pages = 3` it is exactly
`[0, 1, 2]`. -/
theorem c5_visible_page_indices_amended (a : App) (tp : Nat)
    (h1 : 1 ≤ tp) (h2 : a.current_page < tp) :
    0 ∈ a.visible_page_indices tp ∧
    (tp - 1) ∈ a.visible_page_indices tp ∧
    (∀ i, a.current_page - 3 ≤ i → i ≤ a.current_page + 3 → i ≤ tp - 1 →
      i ∈ a.visible_page_indices tp) ∧
    (a.current_page < 5 → ∀ i, i ≤ 5 → i ≤ tp - 1 → i ∈ a.visible_page_indices tp) ∧
    (5 < tp - 1 → tp - 1 - 5 < a.current_page →
      ∀ i, tp - 1 - 5 ≤ i → i ≤ tp - 1 → i ∈ a.visible_page_indices tp) ∧
    (a.visible_page_indices tp).Sorted (· < ·) ∧
    (tp = 20 → a.current_page = 10 →
      (0 ∈ a.visible_page_indices tp ∧ 19 ∈ a.visible_page_indices tp ∧
        ∀ i, 7 ≤ i → i ≤ 13 → i ∈ a.visible_page_indices tp)) ∧
    (tp = 3 → a.visible_page_indices tp = [0, 1, 2]) := by
  have h0 : tp ≠ 0 := by omega
  have hmem := visible_mem_iff a tp h0
  refine ⟨?_, ?_, ?_, ?_, ?_, ?_, ?_, ?_⟩
  · rw [hmem]; omega
  · rw [hmem]; omega
  · intro i hi1 hi2 hi3; rw [hmem]; omega
  · intro hc i hi1 hi2; rw [hmem]; omega
  · intro hl hc i hi1 hi2; rw [hmem]; omega
  · rw [App.visible_page_indices, if_neg h0]
    exact Finset.sort_sorted_lt _
  · intro htp hcp
    subst htp
    refine ⟨?_, ?_, ?_⟩
    · rw [hmem]; omega
    · rw [hmem]; omega
    · intro i hi1 hi2; rw [hmem]; omega
  · intro htp
    subst htp
    refine sorted_nat_list_ext ?_ (by decide) ?_
    · rw [App.visible_page_indices, if_neg h0]
      exact Finset.sort_sorted_lt _
    · intro i
      rw [hmem]
      simp only [List.mem_cons, List.not_mem_nil, or_false]
      omega

/-- C5 witness: instantiation at 20 pages, current page 10. -/
theorem c5_visible_page_indices_amended_witness :
    0 ∈ ({ app0 with current_page := 10 } : App).visible_page_indices 20 ∧
    19 ∈ ({ app0 with current_page := 10 } : App).visible_page_indices 20 :=
  ⟨(c5_visible_page_indices_amended { app0 with current_page := 10 } 20
      (by decide) (by decide)).1,
   ((c5_visible_page_indices_amended { app0 with current_page := 10 } 20
      (by decide) (by decide)).2.2.2.2.2.2.1 rfl rfl).2.1⟩

/-- C10: with Table focus, no selected type, and a nonempty snapshot, both
Move-Up and Move-Down select the alphabetically first record type and row 0
instead of leaving the state unchanged. -/
theorem c10_up_down_select_first_type (a : App)
    (h1 : a.selected_table = none) (h2 : a.records ≠ []) :
    ∃ t0, t0 ∈ a.records.map Prod.fst ∧ (∀ t ∈ a.records.map Prod.fst, t0 ≤ t) ∧
      handle_navigation_up a
        = some { a with selected_table := some t0, selected_row := some 0 } ∧
      handle_navigation_down a
        = some { a with selected_table := some t0, selected_row := some 0 } := by
  have hlen : a.sortedTypes.length = (a.records.map Prod.fst).length :=
    List.length_mergeSort _
  have hne : a.sortedTypes ≠ [] := by
    intro hnil
    rw [hnil] at hlen
    exact h2 (List.map_eq_nil_iff.mp (List.length_eq_zero.mp hlen.symm))
  obtain ⟨t0, rest, heq⟩ := List.exists_cons_of_ne_nil hne
  have hperm : List.Perm a.sortedTypes (a.records.map Prod.fst) :=
    List.mergeSort_perm _ _
  have hsorted : a.sortedTypes.Pairwise (fun x y => strLe x y) :=
    List.sorted_mergeSort strLe_trans strLe_total _
  have hmem : t0 ∈ a.records.map Prod.fst :=
    hperm.mem_iff.mp (heq ▸ List.mem_cons_self t0 rest)
  have hleast : ∀ t ∈ a.records.map Prod.fst, t0 ≤ t := by
    intro t ht
    have ht2 : t ∈ a.sortedTypes := hperm.mem_iff.mpr ht
    rw [heq] at ht2
    rcases List.mem_cons.mp ht2 with rfl | ht3
    · exact le_refl t
    · have := (List.pairwise_cons.mp (heq ▸ hsorted)).1 t ht3
      simpa [strLe] using this
  refine ⟨t0, hmem, hleast, ?_, ?_⟩
  · rw [handle_navigation_up, h1]
    simp [heq]
  · rw [handle_navigation_down, h1]
    simp [heq]

/-- C10 witness: two types `b`, `a`; the navigation keys select type `a`. -/
theorem c10_up_down_select_first_type_witness :
    ∃ t0, t0 ∈ appBA.records.map Prod.fst ∧
      (∀ t ∈ appBA.records.map Prod.fst, t0 ≤ t) ∧
      handle_navigation_up appBA
        = some { appBA with selected_table := some t0, selected_row := some 0 } ∧
      handle_navigation_down appBA
        = some { appBA with selected_table := some t0, selected_row := some 0 } :=
  c10_up_down_select_first_type appBA rfl (List.cons_ne_nil _ _)

/-- C4 counterexample: a filter-text edit in Input focus does not re-clamp
`current_page`. Starting from a state on page 1 of 2 (one row per page, two
rows), typing `z` empties the filtered list, making `total_pages = 1`, yet
`current_page` stays 1, violating `current_page < total_pages`. -/
theorem c4_counterexample_filter_edit :
    appC4.get_total_pages "a" ((max appC4.rows_per_page 1) % 65536) = some 2 ∧
    appC4.current_page = 1 ∧
    (handle_key_event ⟨.char 'z', false⟩ .ok appC4).map App.current_page = some 1 ∧
    ((handle_key_event ⟨.char 'z', false⟩ .ok appC4).bind fun a2 =>
      a2.get_total_pages "a" ((max a2.rows_per_page 1) % 65536)) = some 1 ∧
    ((handle_key_event ⟨.char 'z', false⟩ .ok appC4).map fun a2 =>
      a2.selected_table) = some (some "a") ∧
    ¬ (1 : Nat) < 1 :=
  ⟨rfl, rfl, rfl, rfl, rfl, by omega⟩

/-- C4 (amended): the invariant `0 ≤ current_page < total_pages` is
preserved by every Pages-focus transition (`handle_pages_key`): Page-Left
and Page-Right keep the page in range whenever it was in range before.
It is not maintained by filter-text edits in Input focus (see the
counterexample), by Switch-Focus-Backward type steps, or by deletes, none
of which re-clamp `current_page`. -/
theorem c4_pages_key_preserves_invariant (a : App) (k : KeyCode) (h : pageInv a) :
    ∀ a2, handle_pages_key k a = some a2 → pageInv a2 := by
  intro a2 ha2
  cases k with
  | tab =>
    simp only [handle_pages_key, Option.some.injEq] at ha2
    subst ha2
    exact fun t ht tp htp => h t ht tp htp
  | esc =>
    simp only [handle_pages_key, Option.some.injEq] at ha2
    subst ha2
    exact fun t ht tp htp => h t ht tp htp
  | left =>
    simp only [handle_pages_key, Option.some.injEq] at ha2
    subst ha2
    by_cases hc : 0 < a.current_page
    · rw [if_pos hc]
      intro t ht tp htp
      have hlt : a.current_page < tp := h t ht tp htp
      have hgoal : a.current_page - 1 < tp := by omega
      exact hgoal
    · rw [if_neg hc]
      exact h
  | right =>
    simp only [handle_pages_key] at ha2
    cases hsel : a.selected_table with
    | none =>
      simp only [hsel, Option.some.injEq] at ha2
      subst ha2
      exact h
    | some t =>
      cases htp : a.get_total_pages t ((max a.rows_per_page 1) % 65536) with
      | none =>
        simp only [hsel, htp] at ha2
        exact absurd ha2 (by simp)
      | some tp =>
        simp only [hsel, htp] at ha2
        by_cases hc : a.current_page + 1 < tp
        · rw [if_pos hc, Option.some.injEq] at ha2
          subst ha2
          intro t2 ht2 tp2 htp2
          have ht2a : some t = some t2 := ht2
          cases ht2a
          have htp2a : some tp = some tp2 := htp ▸ htp2
          cases htp2a
          exact hc
        · rw [if_neg hc, Option.some.injEq] at ha2
          subst ha2
          exact h
  | enter =>
    simp only [handle_pages_key, Option.some.injEq] at ha2
    subst ha2; exact h
  | backTab =>
    simp only [handle_pages_key, Option.some.injEq] at ha2
    subst ha2; exact h
  | backspace =>
    simp only [handle_pages_key, Option.some.injEq] at ha2
    subst ha2; exact h
  | up =>
    simp only [handle_pages_key, Option.some.injEq] at ha2
    subst ha2; exact h
  | down =>
    simp only [handle_pages_key, Option.some.injEq] at ha2
    subst ha2; exact h
  | pageUp =>
    simp only [handle_pages_key, Option.some.injEq] at ha2
    subst ha2; exact h
  | pageDown =>
    simp only [handle_pages_key, Option.some.injEq] at ha2
    subst ha2; exact h
  | char c =>
    simp only [handle_pages_key, Option.some.injEq] at ha2
    subst ha2; exact h

/-- C4 witness: Page-Left on a one-page state keeps the page below the page
count. -/
theorem c4_pages_key_preserves_invariant_witness : appA.current_page < 1 := by
  have hinv : pageInv appA := by
    intro t ht tp htp
    have ht2 : some "a" = some t := ht
    cases ht2
    have htp2 : some 1 = some tp := htp
    cases htp2
    decide
  have hout := c4_pages_key_preserves_invariant appA .left hinv appA rfl
  have h1 : appA.get_total_pages "a" ((max appA.rows_per_page 1) % 65536) = some 1 := rfl
  exact hout "a" rfl 1 h1

/-- C7: in every snapshot, the derived headers of a present record type are
exactly `"key"` followed by the alphabetically sorted distinct object-payload
field names observed across that type's records, and reduce to exactly
`["key"]` when no record has an object payload. -/
theorem c7_collect_headers_spec (records : RecordsMap) (t : String) (hs : List String)
    (h : List.lookup t (collect_headers records) = some hs) :
    ∃ recs, List.lookup t records = some recs ∧
      ∃ tl, hs = "key" :: tl ∧
        tl.Sorted (· < ·) ∧
        (∀ s, s ∈ tl ↔ ∃ r ∈ recs, s ∈ r.data.fieldNames) ∧
        ((∀ r ∈ recs, r.data.isObj = false) → hs = ["key"]) := by
  rw [collect_headers,
    lookup_map_pair (fun _ recs => "key" :: (collectKeys recs).mergeSort strLe) records t] at h
  cases hrec : List.lookup t records with
  | none => rw [hrec] at h; cases h
  | some recs =>
    rw [hrec] at h
    simp only [Option.map_some', Option.some.injEq] at h
    refine ⟨recs, rfl, (collectKeys recs).mergeSort strLe, h.symm, ?_, ?_, ?_⟩
    · have hsorted : ((collectKeys recs).mergeSort strLe).Pairwise (fun x y => strLe x y) :=
        List.sorted_mergeSort strLe_trans strLe_total _
      have hnodup : ((collectKeys recs).mergeSort strLe).Nodup :=
        (List.mergeSort_perm (collectKeys recs) strLe).nodup_iff.mpr (nodup_collectKeys recs)
      have hle : ((collectKeys recs).mergeSort strLe).Sorted (· ≤ ·) :=
        hsorted.imp (fun hxy => by simpa [strLe] using hxy)
      exact hle.lt_of_le hnodup
    · intro s
      rw [List.mem_mergeSort, mem_collectKeys]
    · intro hnone
      have htl : (collectKeys recs).mergeSort strLe = [] := by
        rw [List.eq_nil_iff_forall_not_mem]
        intro s hsmem
        rw [List.mem_mergeSort, mem_collectKeys] at hsmem
        obtain ⟨r, hr, hfield⟩ := hsmem
        have hobj := hnone r hr
        cases hdata : r.data <;> simp [Json.fieldNames, hdata] at hfield <;>
          simp [Json.isObj, hdata] at hobj
      rw [h.symm, htl]

/-- C7 witness: one type with an object-payload record and a plain record. -/
theorem c7_collect_headers_spec_witness :
    ∃ recs, List.lookup "a" [("a", [recObj, recA1])] = some recs ∧
      ∃ tl, "key" :: (collectKeys [recObj, recA1]).mergeSort strLe = "key" :: tl ∧
        tl.Sorted (· < ·) ∧
        (∀ s, s ∈ tl ↔ ∃ r ∈ recs, s ∈ r.data.fieldNames) ∧
        ((∀ r ∈ recs, r.data.isObj = false) →
          "key" :: (collectKeys [recObj, recA1]).mergeSort strLe = ["key"]) :=
  c7_collect_headers_spec [("a", [recObj, recA1])] "a"
    ("key" :: (collectKeys [recObj, recA1]).mergeSort strLe) rfl

/-- C2: a Delete issued from Table focus on a selected in-range row: on
store success the record is removed from the in-memory snapshot,
`selected_row` is re-clamped to the new list length, and both
`selected_table` and `selected_row` are cleared when the type becomes
empty; on store failure (open or delete error) the error text is surfaced
as the modal `show_raw_data` and the snapshot is untouched. -/
theorem c2_delete_transition (a : App) (t : String) (row : Nat)
    (filtered : List Record) (out : DeleteOutcome)
    (h1 : a.selected_table = some t) (h2 : a.selected_row = some row)
    (h3 : a.get_filtered_records t = some filtered) (h4 : row < filtered.length) :
    (∀ e, out = .openErr e →
      handle_table_key (.char 'd') out a
        = some { a with show_raw_data := some ("Error opening DB: " ++ e) }) ∧
    (∀ e, out = .deleteErr e →
      handle_table_key (.char 'd') out a
        = some { a with show_raw_data := some ("Error deleting key " ++ (filtered.get ⟨row, h4⟩).key ++ ": " ++ e) }) ∧
    (out = .ok →
      ∃ a2, handle_table_key (.char 'd') out a = some a2 ∧
        a2.records = delete_record a.records t (filtered.get ⟨row, h4⟩).key ∧
        a2.show_raw_data
          = some ("Successfully deleted key: " ++ (filtered.get ⟨row, h4⟩).key) ∧
        ((List.lookup t a2.records).getD [] = [] →
          a2.selected_table = none ∧ a2.selected_row = none) ∧
        (∀ rs, List.lookup t a2.records = some rs → rs ≠ [] →
          a2.selected_table = some t ∧
          a2.selected_row = some (min row (rs.length - 1)))) := by
  have hget : filtered.get? row = some (filtered.get ⟨row, h4⟩) := List.get?_eq_get h4
  have hbase : handle_table_key (.char 'd') out a
      = (match out with
         | .openErr e => some { a with show_raw_data := some ("Error opening DB: " ++ e) }
         | .deleteErr e => some { a with show_raw_data := some ("Error deleting key " ++ (filtered.get ⟨row, h4⟩).key ++ ": " ++ e) }
         | .ok =>
            match List.lookup t (delete_record a.records t (filtered.get ⟨row, h4⟩).key) with
            | none => some { a with records := delete_record a.records t (filtered.get ⟨row, h4⟩).key, show_raw_data := some ("Successfully deleted key: " ++ (filtered.get ⟨row, h4⟩).key), selected_table := none, selected_row := none }
            | some rs =>
              if rs.isEmpty then some { a with records := delete_record a.records t (filtered.get ⟨row, h4⟩).key, show_raw_data := some ("Successfully deleted key: " ++ (filtered.get ⟨row, h4⟩).key), selected_table := none, selected_row := none }
              else some { a with records := delete_record a.records t (filtered.get ⟨row, h4⟩).key, show_raw_data := some ("Successfully deleted key: " ++ (filtered.get ⟨row, h4⟩).key), selected_row := some (min row (rs.length - 1)) }) := by
    rw [handle_table_key]
    simp only [h1, h2, h3, hget, if_neg (by decide : ¬ ('d' = 'r')), eq_self_iff_true,
      if_true]
  refine ⟨?_, ?_, ?_⟩
  · intro e he
    subst he
    rw [hbase]
  · intro e he
    subst he
    rw [hbase]
  · intro he
    subst he
    cases hlook : List.lookup t (delete_record a.records t (filtered.get ⟨row, h4⟩).key) with
    | none =>
      refine ⟨_, hbase.trans (by rw [hlook]), rfl, rfl, ?_, ?_⟩
      · intro _; exact ⟨rfl, rfl⟩
      · intro rs hrs _
        exact absurd (hlook.symm.trans hrs) (by simp)
    | some rs =>
      by_cases hemp : rs.isEmpty
      · refine ⟨_, hbase.trans (by rw [hlook]; exact if_pos hemp), rfl, rfl, ?_, ?_⟩
        · intro _; exact ⟨rfl, rfl⟩
        · intro rs2 hrs2 hne
          have hrs3 : some rs = some rs2 := hlook.symm.trans hrs2
          cases hrs3
          exact absurd (List.isEmpty_iff.mp hemp) hne
      · refine ⟨_, hbase.trans (by rw [hlook]; exact if_neg hemp), rfl, rfl, ?_, ?_⟩
        · intro habs
          have hl2 : (List.lookup t
              (delete_record a.records t (filtered.get ⟨row, h4⟩).key)).getD
                ([] : List Record) = [] := habs
          rw [hlook] at hl2
          have hnil : rs = [] := by simpa using hl2
          exact absurd (List.isEmpty_iff.mpr hnil) hemp
        · intro rs2 hrs2 _
          have hrs3 : some rs = some rs2 := hlook.symm.trans hrs2
          cases hrs3
          exact ⟨h1, rfl⟩

/-- C2 witness: deleting row 0 of type `a` (two records) succeeds; the
first record disappears and the selection is clamped to the shorter list. -/
theorem c2_delete_transition_witness :
    ∃ a2, handle_table_key (.char 'd') .ok appA = some a2 ∧
      a2.records
        = delete_record appA.records "a" (([recA1, recA2].get ⟨0, by decide⟩)).key ∧
      a2.show_raw_data
        = some ("Successfully deleted key: " ++ (([recA1, recA2].get ⟨0, by decide⟩)).key) ∧
      ((List.lookup "a" a2.records).getD [] = [] →
        a2.selected_table = none ∧ a2.selected_row = none) ∧
      (∀ rs, List.lookup "a" a2.records = some rs → rs ≠ [] →
        a2.selected_table = some "a" ∧
        a2.selected_row = some (min 0 (rs.length - 1))) :=
  (c2_delete_transition appA "a" 0 [recA1, recA2] .ok rfl rfl rfl (by decide)).2.2 rfl

theorem ratCompare_ne_gt (x y : Rat) : (ratCompare x y ≠ .gt) ↔ x ≤ y := by
  rw [ratCompare]
  split_ifs with h1 h2
  · simp [le_of_lt h1]
  · simp [le_of_eq h2]
  · simp only [ne_eq, not_true_eq_false, false_iff]
    exact not_le.mpr (lt_of_le_of_ne (not_lt.mp h1) (Ne.symm h2))

/-- On records whose sort cells both parse, the comparator used by
`get_filtered_records` agrees with the numeric order of the parsed values. -/
theorem recordCmp_agree_numeric (hs : List String) (col : Nat) (asc : Bool)
    (x y : Record)
    (hx : (parseF64? (cellStr hs col x)).isSome)
    (hy : (parseF64? (cellStr hs col y)).isSome) :
    decide (recordCmp hs col asc x y ≠ .gt)
      = (if asc then decide (numVal hs col x ≤ numVal hs col y)
         else decide (numVal hs col y ≤ numVal hs col x)) := by
  obtain ⟨vx, hvx⟩ := Option.isSome_iff_exists.mp hx
  obtain ⟨vy, hvy⟩ := Option.isSome_iff_exists.mp hy
  have hnx : numVal hs col x = vx := by rw [numVal, hvx]; rfl
  have hny : numVal hs col y = vy := by rw [numVal, hvy]; rfl
  rw [recordCmp, cmpCell, hvx, hvy, hnx, hny]
  cases asc with
  | true =>
    simp only [if_true, if_pos]
    exact decide_eq_decide.mpr (ratCompare_ne_gt vx vy)
  | false =>
    simp only [if_false, if_neg]
    exact decide_eq_decide.mpr (ratCompare_ne_gt vy vx)

/-- C6: when the active sort column is set and every cell in it parses as a
number, the output of `get_filtered_records` is numerically non-decreasing
for ascending sort and non-increasing for descending sort; and whenever the
two compared cells do not both parse as numbers, the comparator falls back
to lexicographic comparison of the raw cell strings, with the direction
controlled by `sort_ascending`. -/
theorem c6_sort_spec (a : App) (t : String) (col : Nat) (hs : List String)
    (l : List Record)
    (hcol : a.sort_column = some col)
    (hhs : List.lookup t a.headers = some hs)
    (hl : a.get_filtered_records t = some l) :
    ((∀ r ∈ l, (parseF64? (cellStr hs col r)).isSome) →
      (a.sort_ascending = true →
        l.Chain' (fun x y => numVal hs col x ≤ numVal hs col y)) ∧
      (a.sort_ascending = false →
        l.Chain' (fun x y => numVal hs col y ≤ numVal hs col x))) ∧
    (∀ x y : String, ¬((parseF64? x).isSome ∧ (parseF64? y).isSome) →
      cmpCell a.sort_ascending x y
        = (if a.sort_ascending then strCompare x y else strCompare y x)) := by
  constructor
  · intro hparse
    rw [App.get_filtered_records] at hl
    cases hrec : List.lookup t a.records with
    | none => rw [hrec] at hl; cases hl
    | some recs =>
      rw [hrec, hcol, hhs] at hl
      simp only [Option.some.injEq] at hl
      have hparse2 : ∀ r ∈ (if a.input = "" then recs
          else recs.filter fun r => substrB r.key a.input),
          (parseF64? (cellStr hs col r)).isSome := by
        intro r hr
        refine hparse r ?_
        rw [← hl]
        exact List.mem_mergeSort.mpr hr
      constructor
      · intro hasc
        have hagree : ∀ x ∈ (if a.input = "" then recs
            else recs.filter fun r => substrB r.key a.input),
            ∀ y ∈ (if a.input = "" then recs
            else recs.filter fun r => substrB r.key a.input),
            (fun x y => decide (recordCmp hs col a.sort_ascending x y ≠ .gt)) x y
              = (fun x y => decide (numVal hs col x ≤ numVal hs col y)) x y := by
          intro x hx y hy
          have hthis := recordCmp_agree_numeric hs col a.sort_ascending x y
            (hparse2 x hx) (hparse2 y hy)
          simp only [hasc] at hthis ⊢
          simpa using hthis
        rw [mergeSort_congr _ _ _ hagree] at hl
        have hsorted := @List.sorted_mergeSort _
          (fun x y => decide (numVal hs col x ≤ numVal hs col y))
          (fun x y z hxy hyz => by
            simp only [decide_eq_true_eq] at *
            exact le_trans hxy hyz)
          (fun x y => by
            simp only [Bool.or_eq_true, decide_eq_true_eq]
            exact le_total _ _)
          (if a.input = "" then recs else recs.filter fun r => substrB r.key a.input)
        rw [hl] at hsorted
        exact (hsorted.imp fun hxy => of_decide_eq_true hxy).chain'
      · intro hasc
        have hagree : ∀ x ∈ (if a.input = "" then recs
            else recs.filter fun r => substrB r.key a.input),
            ∀ y ∈ (if a.input = "" then recs
            else recs.filter fun r => substrB r.key a.input),
            (fun x y => decide (recordCmp hs col a.sort_ascending x y ≠ .gt)) x y
              = (fun x y => decide (numVal hs col y ≤ numVal hs col x)) x y := by
          intro x hx y hy
          have hthis := recordCmp_agree_numeric hs col a.sort_ascending x y
            (hparse2 x hx) (hparse2 y hy)
          simp only [hasc] at hthis ⊢
          simpa using hthis
        rw [mergeSort_congr _ _ _ hagree] at hl
        have hsorted := @List.sorted_mergeSort _
          (fun x y => decide (numVal hs col y ≤ numVal hs col x))
          (fun x y z hxy hyz => by
            simp only [decide_eq_true_eq] at *
            exact le_trans hyz hxy)
          (fun x y => by
            simp only [Bool.or_eq_true, decide_eq_true_eq]
            exact le_total _ _)
          (if a.input = "" then recs else recs.filter fun r => substrB r.key a.input)
        rw [hl] at hsorted
        exact (hsorted.imp fun hxy => of_decide_eq_true hxy).chain'
  · intro x y hxy
    rw [cmpCell]
    cases hx : parseF64? x with
    | none => cases hy : parseF64? y <;> rfl
    | some vx =>
      cases hy : parseF64? y with
      | none => rfl
      | some vy => exact absurd ⟨by rw [hx]; rfl, by rw [hy]; rfl⟩ hxy

/-- C6 witness: sorting two records whose keys are the numerals `10` and
`2` by the key column ascending yields a numerically non-decreasing list
(numeric, not lexicographic, order). -/
theorem c6_sort_spec_witness :
    appNList.Chain' (fun x y => numVal ["key"] 0 x ≤ numVal ["key"] 0 y) := by
  have hall : ∀ r ∈ appNList, (parseF64? (cellStr ["key"] 0 r)).isSome := by
    intro r hr
    rw [appNList, List.mem_mergeSort] at hr
    simp only [List.mem_cons, List.not_mem_nil, or_false] at hr
    rcases hr with rfl | rfl <;> decide
  exact ((c6_sort_spec appN "n" 0 ["key"] appNList rfl rfl rfl).1 hall).1 rfl

end RocksViewer
